import Mathlib

/-!
Verification development for the spelling-trainer program
(`src/spelling-trainer.py`).

The Python program is shallowly embedded as follows:

* Python `str` is Lean `String` (a structure holding a `List Char`);
  `str.strip()` is `pyStrip`, `"|".join(...)` is `pyJoinSep`,
  `s.split("|")` is `pySplitSep`, all defined over the character list.
* The `dict[str, WordEntry]` keyed by word is an insertion-ordered
  association list `Entries := List (String × WordEntry)` with unique keys
  (a Python dict invariant); inserting a fresh key appends, overwriting an
  existing key updates in place, as Python dicts do.  Object identity of
  the distinct dict values is modelled by carrying the key alongside the
  entry value.
* In-place mutation of a `WordEntry` becomes a function returning the
  updated entry; raising an exception becomes an explicit error value.
-/

/-- The constant `MASTERY_STREAK = 5` from the source. -/
def MASTERY_STREAK : Nat := 5

/-- The constant `DATE_SEP = "|"` from the source (a single character). -/
def DATE_SEP : Char := '|'

/-- The dataclass `WordEntry(word, phrase, history)`; `history` is a list of
`YYYY-MM-DD` strings. -/
structure WordEntry where
  word : String
  phrase : String
  history : List String
deriving DecidableEq

/-- Property `WordEntry.streak`: `len(self.history)`. -/
def WordEntry.streak (e : WordEntry) : Nat := e.history.length

/-- Property `WordEntry.mastered`: `self.streak >= MASTERY_STREAK`. -/
def WordEntry.mastered (e : WordEntry) : Bool := MASTERY_STREAK ≤ e.streak

/-- Method `WordEntry.reviewed_today(today)`:
`bool(self.history) and self.history[-1] == today`. -/
def WordEntry.reviewed_today (e : WordEntry) (today : String) : Bool :=
  match e.history.getLast? with
  | some d => d == today
  | none => false

/-- Method `WordEntry.last_review()`: last history element, if any. -/
def WordEntry.last_review (e : WordEntry) : Option String := e.history.getLast?

/-- The `dict[str, WordEntry]` of the program, as an insertion-ordered
association list with (in all reachable states) unique keys. -/
abbrev Entries := List (String × WordEntry)

/-- `record_success_once_per_day(entry, today)`: return unchanged if
`entry.reviewed_today(today)`, otherwise append `today` to the history. -/
def record_success_once_per_day (e : WordEntry) (today : String) : WordEntry :=
  if e.reviewed_today today then e
  else { e with history := e.history ++ [today] }

/-- `reset_streak(entry)`: `entry.history.clear()`. -/
def reset_streak (e : WordEntry) : WordEntry := { e with history := [] }

/-- `get_review_queue(entries, today)`: the values of `entries` (with their
keys, modelling object identity) that are neither mastered nor reviewed
today, in dict order. -/
def get_review_queue (entries : Entries) (today : String) : Entries :=
  entries.filter fun p => !p.2.mastered && !p.2.reviewed_today today

/-- Python `str.strip()` on the underlying character list: drop whitespace
from the front and from the back. -/
def pyStripChars (l : List Char) : List Char :=
  ((l.dropWhile Char.isWhitespace).reverse.dropWhile Char.isWhitespace).reverse

/-- Python `str.strip()`. -/
def pyStrip (s : String) : String := String.mk (pyStripChars s.data)

/-- Helper: `reviewed_today` of an entry whose history ends in `today` is
true. -/
theorem reviewed_today_concat (e : WordEntry) (today : String) :
    WordEntry.reviewed_today { e with history := e.history ++ [today] } today = true := by
  unfold WordEntry.reviewed_today
  simp [List.getLast?_concat]

/-- Helper: `reviewed_today e today = false` unfolds to: history empty, or
its last element differs from `today`. -/
theorem reviewed_today_eq_false_iff (e : WordEntry) (today : String) :
    e.reviewed_today today = false ↔
      e.history = [] ∨ e.history.getLast? ≠ some today := by
  unfold WordEntry.reviewed_today
  cases h : e.history.getLast? with
  | none =>
    simp only [List.getLast?_eq_none_iff] at h
    simp [h]
  | some d =>
    have hne : e.history ≠ [] := by
      intro hnil
      rw [hnil] at h
      simp at h
    simp [hne, h, beq_eq_false_iff_ne]

/-- C2: a failed review (`reset_streak`) leaves the history empty and the
streak equal to 0, for every prior state of the entry — in particular also
when the streak is already 0 or the entry was reviewed earlier the same
day. -/
theorem reset_streak_spec (e : WordEntry) :
    (reset_streak e).history = [] ∧ (reset_streak e).streak = 0 :=
  ⟨rfl, rfl⟩

/-- C3: recording a success for the same entry and day twice in succession
yields the same history (indeed the same entry) as recording it once. -/
theorem record_success_idempotent (e : WordEntry) (today : String) :
    record_success_once_per_day (record_success_once_per_day e today) today =
      record_success_once_per_day e today := by
  by_cases h : e.reviewed_today today = true
  · simp [record_success_once_per_day, h]
  · have h' : e.reviewed_today today = false := by
      simpa using h
    unfold record_success_once_per_day
    rw [h']
    simp [reviewed_today_concat]

/-- C1: membership in the review queue is exactly "in the mapping, not
mastered, and not reviewed today (history empty or last element different
from today)", and — the dict having unique keys — every due entry occurs
exactly once, with no duplicates. -/
theorem get_review_queue_spec (entries : Entries) (today : String)
    (hkeys : (entries.map Prod.fst).Nodup) :
    (∀ p : String × WordEntry,
        p ∈ get_review_queue entries today ↔
          p ∈ entries ∧ p.2.mastered = false ∧
            (p.2.history = [] ∨ p.2.history.getLast? ≠ some today)) ∧
      (get_review_queue entries today).Nodup := by
  constructor
  · intro p
    rw [get_review_queue, List.mem_filter]
    simp only [Bool.and_eq_true, Bool.not_eq_true', reviewed_today_eq_false_iff]
  · exact (List.Nodup.of_map _ hkeys).filter _

/-- Concrete store used to witness the queue characterization: one entry
reviewed today, one fresh entry, one mastered entry. -/
def wEntries : Entries :=
  [("cat", ⟨"cat", "The cat sat.", ["2024-01-04"]⟩),
   ("dog", ⟨"dog", "A dog barks.", []⟩),
   ("ace", ⟨"ace", "",
      ["2023-12-30", "2023-12-31", "2024-01-01", "2024-01-02", "2024-01-03"]⟩)]

/-- Witness for C1 at the concrete store `wEntries`. -/
theorem get_review_queue_spec_witness :
    (∀ p : String × WordEntry,
        p ∈ get_review_queue wEntries "2024-01-04" ↔
          p ∈ wEntries ∧ p.2.mastered = false ∧
            (p.2.history = [] ∨ p.2.history.getLast? ≠ some "2024-01-04")) ∧
      (get_review_queue wEntries "2024-01-04").Nodup :=
  get_review_queue_spec wEntries "2024-01-04" (by decide)

/-- An entry whose history contains the date `2024-01-02` at a non-last
position. -/
def dupEntry : WordEntry := ⟨"mouse", "", ["2024-01-02", "2024-01-01"]⟩

/-- C4 counterexample: `reviewed_today` only inspects the last history
element, so recording a success on `2024-01-02` — a date already present in
`dupEntry.history`, though not last — appends it again, and the history then
contains the same date twice, refuting the claim as stated. -/
theorem record_success_duplicate_date :
    "2024-01-02" ∈ dupEntry.history ∧
      (record_success_once_per_day dupEntry "2024-01-02").history.count
        "2024-01-02" = 2 := by
  constructor
  · decide
  · decide

/-- C4 amended: recording a success increases the streak by at most 1 and
never decreases it, and it never appends `today` when `today` is already the
last element of the history (it can, however, re-append a date that occurs
earlier, non-last, in the history). -/
theorem record_success_streak_bounds (e : WordEntry) (today : String) :
    (record_success_once_per_day e today).streak ≤ e.streak + 1 ∧
      e.streak ≤ (record_success_once_per_day e today).streak ∧
      (e.reviewed_today today = true → record_success_once_per_day e today = e) := by
  by_cases h : e.reviewed_today today
  · simp [record_success_once_per_day, h]
  · simp [record_success_once_per_day, h, WordEntry.streak]

/-- Witness for the amended C4 at a concrete entry and day. -/
theorem record_success_streak_bounds_witness :
    (record_success_once_per_day ⟨"cat", "", []⟩ "2024-01-05").streak ≤
        (⟨"cat", "", []⟩ : WordEntry).streak + 1 ∧
      (⟨"cat", "", []⟩ : WordEntry).streak ≤
        (record_success_once_per_day ⟨"cat", "", []⟩ "2024-01-05").streak ∧
      ((⟨"cat", "", []⟩ : WordEntry).reviewed_today "2024-01-05" = true →
        record_success_once_per_day ⟨"cat", "", []⟩ "2024-01-05" =
          ⟨"cat", "", []⟩) :=
  record_success_streak_bounds ⟨"cat", "", []⟩ "2024-01-05"

/-- C10: `record_success_once_per_day` has no mastery guard — on an already
mastered entry not yet reviewed today it still appends, the streak grows
strictly beyond `MASTERY_STREAK`, the entry stays mastered and stays out of
every review queue for that day. -/
theorem record_success_no_mastery_guard (e : WordEntry) (today : String)
    (hm : MASTERY_STREAK ≤ e.streak) (hr : e.reviewed_today today = false) :
    (record_success_once_per_day e today).history = e.history ++ [today] ∧
      MASTERY_STREAK < (record_success_once_per_day e today).streak ∧
      (record_success_once_per_day e today).mastered = true ∧
      ∀ (entries : Entries) (k : String),
        (k, record_success_once_per_day e today) ∉ get_review_queue entries today := by
  have happ : record_success_once_per_day e today =
      { e with history := e.history ++ [today] } := by
    simp [record_success_once_per_day, hr]
  have hstreak : (record_success_once_per_day e today).streak = e.streak + 1 := by
    rw [happ]; simp [WordEntry.streak]
  have hmast : (record_success_once_per_day e today).mastered = true := by
    rw [WordEntry.mastered, hstreak]
    simpa using Nat.le_succ_of_le hm
  refine ⟨by rw [happ], by omega, hmast, ?_⟩
  intro entries k hmem
  rw [get_review_queue, List.mem_filter] at hmem
  have := hmem.2
  simp only [Bool.and_eq_true, Bool.not_eq_true'] at this
  rw [hmast] at this
  exact absurd this.1 (by simp)

/-- An already mastered entry (streak 5) last reviewed on `2024-01-03`. -/
def mastEntry : WordEntry :=
  ⟨"ace", "", ["2023-12-30", "2023-12-31", "2024-01-01", "2024-01-02", "2024-01-03"]⟩

/-- Witness for C10 at a concrete mastered entry and a fresh day. -/
theorem record_success_no_mastery_guard_witness :
    (record_success_once_per_day mastEntry "2024-01-04").history =
        mastEntry.history ++ ["2024-01-04"] ∧
      MASTERY_STREAK < (record_success_once_per_day mastEntry "2024-01-04").streak ∧
      (record_success_once_per_day mastEntry "2024-01-04").mastered = true ∧
      ∀ (entries : Entries) (k : String),
        (k, record_success_once_per_day mastEntry "2024-01-04") ∉
          get_review_queue entries "2024-01-04" :=
  record_success_no_mastery_guard mastEntry "2024-01-04" (by decide) (by decide)

/-- `add_word(entries, word, phrase)`: strip both strings; raising
`ValueError` on an empty stripped word is modelled by returning the original
mapping together with the error message; an existing key (exact match) gets
its entry's `phrase` replaced in place, a fresh key is appended with empty
history. -/
def add_word (entries : Entries) (word phrase : String) :
    Entries × Option String :=
  let w := pyStrip word
  let p := pyStrip phrase
  if w = "" then (entries, some "Word must not be empty.")
  else if (entries.lookup w).isSome then
    (entries.map fun q =>
      if q.1 = w then
        (q.1, { word := q.2.word, phrase := p, history := q.2.history })
      else q,
      none)
  else
    (entries ++ [(w, { word := w, phrase := p, history := [] })], none)

/-- Helper: looking up the updated key after the phrase-replacing map. -/
theorem lookup_map_update_self (l : Entries) (w : String)
    (f : WordEntry → WordEntry) :
    (l.map fun q => if q.1 = w then (q.1, f q.2) else q).lookup w =
      (l.lookup w).map f := by
  induction l with
  | nil => rfl
  | cons q t ih =>
    obtain ⟨k, v⟩ := q
    by_cases h : k = w
    · subst h
      simp [List.lookup_cons]
    · simp [List.lookup_cons, h, ih, beq_false_of_ne (Ne.symm h)]

/-- Helper: looking up any other key after the phrase-replacing map. -/
theorem lookup_map_update_other (l : Entries) (w k : String)
    (f : WordEntry → WordEntry) (hk : k ≠ w) :
    (l.map fun q => if q.1 = w then (q.1, f q.2) else q).lookup k =
      l.lookup k := by
  induction l with
  | nil => rfl
  | cons q t ih =>
    obtain ⟨a, v⟩ := q
    by_cases h : a = w
    · subst h
      simp [List.lookup_cons, ih, beq_false_of_ne hk]
    · simp [List.lookup_cons, h, ih]

/-- C6: `add_word` strips both inputs and fails exactly when the stripped
word is empty, and a failing call leaves the mapping unchanged. -/
theorem add_word_invalid_input (entries : Entries) (word phrase : String) :
    ((add_word entries word phrase).2.isSome ↔ pyStrip word = "") ∧
      (pyStrip word = "" → (add_word entries word phrase).1 = entries) := by
  by_cases h : pyStrip word = ""
  · simp [add_word, h]
  · by_cases h2 : ((entries.lookup (pyStrip word)).isSome : Prop) <;>
      simp [add_word, h, h2]

/-- Witness for C6: adding a whitespace-only word fails and changes
nothing. -/
theorem add_word_invalid_input_witness :
    ((add_word [] "   " "x").2.isSome ↔ pyStrip "   " = "") ∧
      (pyStrip "   " = "" → (add_word [] "   " "x").1 = []) :=
  add_word_invalid_input [] "   " "x"

/-- C7: on an existing exact-match word, `add_word` replaces just that
entry's phrase (history and word untouched) and leaves every other key's
entry unchanged; on a fresh word it inserts an entry with empty history. -/
theorem add_word_update_spec (entries : Entries) (word phrase : String)
    (hw : pyStrip word ≠ "") :
    (∀ e : WordEntry, entries.lookup (pyStrip word) = some e →
        (add_word entries word phrase).1.lookup (pyStrip word) =
          some { e with phrase := pyStrip phrase }) ∧
      (entries.lookup (pyStrip word) = none →
        (add_word entries word phrase).1.lookup (pyStrip word) =
          some { word := pyStrip word, phrase := pyStrip phrase, history := [] }) ∧
      (∀ k, k ≠ pyStrip word →
        (add_word entries word phrase).1.lookup k = entries.lookup k) := by
  by_cases h2 : ((entries.lookup (pyStrip word)).isSome : Prop)
  · have h1 : (add_word entries word phrase).1 =
        entries.map fun q =>
          if q.1 = pyStrip word then
            (q.1, { word := q.2.word, phrase := pyStrip phrase,
                    history := q.2.history })
          else q := by
      simp [add_word, hw, h2]
    refine ⟨?_, ?_, ?_⟩
    · intro e he
      rw [h1,
        lookup_map_update_self entries (pyStrip word)
          (fun v => { word := v.word, phrase := pyStrip phrase,
                      history := v.history }),
        he]
      rfl
    · intro hnone
      rw [hnone] at h2
      simp at h2
    · intro k hk
      rw [h1,
        lookup_map_update_other entries (pyStrip word) k
          (fun v => { word := v.word, phrase := pyStrip phrase,
                      history := v.history }) hk]
  · cases hnone : entries.lookup (pyStrip word) with
    | some v => rw [hnone] at h2; simp at h2
    | none =>
      have h1 : (add_word entries word phrase).1 =
          entries ++
            [(pyStrip word,
              { word := pyStrip word, phrase := pyStrip phrase,
                history := [] })] := by
        simp [add_word, hw, h2]
      refine ⟨?_, ?_, ?_⟩
      · intro e he
        exact Option.noConfusion he
      · intro _
        rw [h1, List.lookup_append, hnone]
        simp
      · intro k hk
        rw [h1, List.lookup_append]
        simp [List.lookup_cons, beq_false_of_ne hk]

/-- Witness for C7: re-adding the word `dog` replaces its phrase, keeps its
history, and leaves the key `cat` alone. -/
theorem add_word_update_spec_witness :
    (∀ e : WordEntry,
        (wEntries.lookup (pyStrip "dog")) = some e →
          (add_word wEntries "dog" "New phrase").1.lookup (pyStrip "dog") =
            some { e with phrase := pyStrip "New phrase" }) ∧
      (wEntries.lookup (pyStrip "dog") = none →
        (add_word wEntries "dog" "New phrase").1.lookup (pyStrip "dog") =
          some { word := pyStrip "dog", phrase := pyStrip "New phrase",
                 history := [] }) ∧
      (∀ k, k ≠ pyStrip "dog" →
        (add_word wEntries "dog" "New phrase").1.lookup k =
          wEntries.lookup k) :=
  add_word_update_spec wEntries "dog" "New phrase" (by decide)

/-- The method names the `Speaker` class defines (besides the constructor):
its attribute table, read off the class body. -/
def speakerMethodNames : List String :=
  ["stop", "speak_async", "speak_and_wait", "speak_many_and_wait",
   "speak_many_async", "_spawn_windows", "_spawn_linux", "_warn_once"]

/-- Python attribute dispatch on a `Speaker` object: invoking a method that
the class does not define raises `AttributeError` (modelled as an error value
carrying the missing attribute name). -/
def speakerGetAttr (m : String) : Except String Unit :=
  if m ∈ speakerMethodNames then Except.ok () else Except.error m

/-- One iteration of the audio-mode review loop, after the typed response is
read: compare `typed.strip().lower()` against `word.lower()`, record the
outcome (`record_success_once_per_day` or `reset_streak`) on the entry, then
report it by invoking `speaker.speak(...)`.  The result pairs the updated
entry — the mutation has already happened in the source — with the exception
raised by the reporting step, if any. -/
def review_step_audio (e : WordEntry) (today typed : String) :
    WordEntry × Option String :=
  if (pyStrip typed).toLower == e.word.toLower then
    (record_success_once_per_day e today,
      match speakerGetAttr "speak" with
      | Except.ok _ => none
      | Except.error m => some m)
  else
    (reset_streak e,
      match speakerGetAttr "speak" with
      | Except.ok _ => none
      | Except.error m => some m)

/-- C5 (code bug): in audio mode the outcome-reporting step always raises —
the `Speaker` class defines no `speak` method, so `speaker.speak(...)` on
lines 396 and 405 raises `AttributeError` on every answer, right or wrong,
after the outcome has been recorded; the audio failure is fatal to the
session loop rather than degraded. -/
theorem review_step_audio_always_raises (e : WordEntry) (today typed : String) :
    (review_step_audio e today typed).2 = some "speak" := by
  by_cases h : (pyStrip typed).toLower == e.word.toLower <;>
    simp [review_step_audio, h, speakerGetAttr, speakerMethodNames]

/-- Python prefix slicing `l[:n]` for an `int` bound `n`: a nonnegative `n`
takes the first `n` elements, a negative `n` drops `-n` elements from the
end, both clamped to the list. -/
def pySliceUpTo (l : Entries) (n : Int) : Entries :=
  if n < 0 then l.take ((l.length : Int) + n).toNat else l.take n.toNat

/-- The selection step of `review(...)`: the due queue is shuffled (the
shuffle is the caller-supplied permutation of the queue) and then, when a
limit was given, truncated with `queue[:limit]`. -/
def review_selection (shuffled : Entries) (limit : Option Int) : Entries :=
  match limit with
  | none => shuffled
  | some n => pySliceUpTo shuffled n

/-- A store with a single, due word. -/
def oneEntryStore : Entries := [("cat", ⟨"cat", "", []⟩)]

/-- C9 counterexample: with one due word and `--limit -1` the session
presents 0 words, whereas min(limit, number of due entries) is -1 — the
claim, quantifying over every provided limit, fails for negative limits
because Python slicing `queue[:limit]` counts from the end. -/
theorem review_selection_negative_limit :
    (get_review_queue oneEntryStore "2024-01-01").length = 1 ∧
      review_selection (get_review_queue oneEntryStore "2024-01-01")
        (some (-1)) = [] ∧
      ¬(((review_selection (get_review_queue oneEntryStore "2024-01-01")
            (some (-1))).length : Int) =
          min (-1 : Int)
            ((get_review_queue oneEntryStore "2024-01-01").length : Int)) := by
  refine ⟨?_, ?_, ?_⟩ <;> decide

/-- C9 amended: for every nonnegative provided limit, the session presents
exactly min(limit, number of due entries) words; each presented word comes
from the due queue — so queue membership is unaffected by the shuffle — and
no entry is presented twice. -/
theorem review_selection_spec (entries : Entries) (today : String)
    (shuffled : Entries) (n : Int)
    (hperm : shuffled.Perm (get_review_queue entries today))
    (hkeys : (entries.map Prod.fst).Nodup) (hn : 0 ≤ n) :
    (review_selection shuffled (some n)).length =
        min n.toNat (get_review_queue entries today).length ∧
      (∀ p ∈ review_selection shuffled (some n),
        p ∈ get_review_queue entries today) ∧
      (review_selection shuffled (some n)).Nodup := by
  have hlen : shuffled.length = (get_review_queue entries today).length :=
    hperm.length_eq
  have hsel : review_selection shuffled (some n) = shuffled.take n.toNat := by
    simp [review_selection, pySliceUpTo, Int.not_lt.mpr hn]
  refine ⟨?_, ?_, ?_⟩
  · rw [hsel, List.length_take, hlen]
  · intro p hp
    rw [hsel] at hp
    exact hperm.mem_iff.mp (List.take_subset _ _ hp)
  · have hq : (get_review_queue entries today).Nodup :=
      (List.Nodup.of_map _ hkeys).filter _
    have hs : shuffled.Nodup := hperm.nodup_iff.mpr hq
    rw [hsel]
    exact List.Nodup.sublist (List.take_sublist _ _) hs

/-- Witness for the amended C9: limit 2 on the one-word due queue of
`wEntries`, with the identity shuffle. -/
theorem review_selection_spec_witness :
    (review_selection (get_review_queue wEntries "2024-01-04")
          (some 2)).length =
        min (Int.toNat 2) (get_review_queue wEntries "2024-01-04").length ∧
      (∀ p ∈ review_selection (get_review_queue wEntries "2024-01-04") (some 2),
        p ∈ get_review_queue wEntries "2024-01-04") ∧
      (review_selection (get_review_queue wEntries "2024-01-04")
        (some 2)).Nodup :=
  review_selection_spec wEntries "2024-01-04"
    (get_review_queue wEntries "2024-01-04") 2 (List.Perm.refl _) (by decide)
    (by decide)

/-- One row of the persisted CSV table (the `csv` module is treated as a
faithful transport of the three string fields `word`, `phrase`,
`history`). -/
structure Row where
  word : String
  phrase : String
  history : String
deriving DecidableEq

/-- Python `DATE_SEP.join(xs)`. -/
def pyJoinSep (xs : List String) : String :=
  String.mk (List.intercalate [DATE_SEP] (xs.map String.data))

/-- Python `s.split(DATE_SEP)`. -/
def pySplitSep (s : String) : List String :=
  (s.data.splitOn DATE_SEP).map String.mk

/-- `save_words(path, entries)`: one row per entry, iterating the keys in
case-insensitive sorted order (`sorted(entries.keys(), key=str.lower)`;
with the dict's unique keys, iterating the sorted keys and indexing equals
iterating the sorted pairs), the history column joined with `DATE_SEP`. -/
def save_words (entries : Entries) : List Row :=
  (entries.mergeSort fun a b => decide (a.1.toLower ≤ b.1.toLower)).map fun p =>
    { word := p.2.word, phrase := p.2.phrase, history := pyJoinSep p.2.history }

/-- Python dict assignment `entries[word] = e`: overwrite in place when the
key exists, append otherwise. -/
def dictInsert (l : Entries) (k : String) (v : WordEntry) : Entries :=
  if (l.lookup k).isSome then l.map fun q => if q.1 = k then (k, v) else q
  else l ++ [(k, v)]

/-- The body of the `load_words` row loop: strip all fields, skip a row
whose stripped word is empty, split the history column on `DATE_SEP`
keeping the nonempty pieces. -/
def loadRow (acc : Entries) (r : Row) : Entries :=
  let word := pyStrip r.word
  if word = "" then acc
  else
    let phrase := pyStrip r.phrase
    let history_raw := pyStrip r.history
    let history :=
      if history_raw = "" then []
      else (pySplitSep history_raw).filter fun h => decide (h ≠ "")
    dictInsert acc word { word := word, phrase := phrase, history := history }

/-- `load_words(path)`: fold the rows into an initially empty dict. -/
def load_words (rows : List Row) : Entries :=
  rows.foldl loadRow []

/-- A history element in the shape the spec calls a non-empty date string:
nonempty, and free of whitespace and of the `DATE_SEP` delimiter — true in
particular of every ISO `YYYY-MM-DD` string. -/
def isDateLike (s : String) : Bool :=
  decide (s ≠ "") &&
    s.data.all fun c => !c.isWhitespace && decide (c ≠ DATE_SEP)

/-- The store invariant under which the round trip is claimed: every key
equals its entry's word, words are nonempty and whitespace-trimmed, phrases
are whitespace-trimmed, and history elements are date strings. -/
def goodEntry (k : String) (e : WordEntry) : Bool :=
  decide (k = e.word) && decide (e.word ≠ "") &&
    decide (pyStrip e.word = e.word) && decide (pyStrip e.phrase = e.phrase) &&
    e.history.all isDateLike

/-- Helper: `dropWhile` is the identity when no element satisfies the
predicate. -/
theorem dropWhile_eq_self_of_all {p : Char → Bool} {l : List Char}
    (h : ∀ c ∈ l, p c = false) : l.dropWhile p = l := by
  cases l with
  | nil => rfl
  | cons a t => simp [List.dropWhile_cons, h a (by simp)]

/-- Helper: stripping a whitespace-free character list changes nothing. -/
theorem pyStripChars_eq_self {l : List Char}
    (h : ∀ c ∈ l, c.isWhitespace = false) : pyStripChars l = l := by
  unfold pyStripChars
  rw [dropWhile_eq_self_of_all h,
    dropWhile_eq_self_of_all fun c hc => h c (List.mem_reverse.mp hc),
    List.reverse_reverse]

/-- Helper: stripping a whitespace-free string changes nothing. -/
theorem pyStrip_eq_self_of_no_ws {s : String}
    (h : ∀ c ∈ s.data, c.isWhitespace = false) : pyStrip s = s := by
  unfold pyStrip
  rw [pyStripChars_eq_self h]

/-- Helper: a string is empty iff its character list is. -/
theorem string_eq_empty_iff_data {s : String} : s = "" ↔ s.data = [] := by
  constructor
  · intro h
    rw [h]
  · intro h
    cases s with
    | mk d =>
      cases h
      rfl

/-- Helper: re-wrapping the character lists of strings is the identity. -/
theorem map_mk_map_data (l : List String) :
    (l.map String.data).map String.mk = l := by
  induction l with
  | nil => rfl
  | cons a t ih =>
    cases a
    simp [ih]

/-- Helper: unfolding `intercalate` on a two-or-more element list. -/
theorem intercalate_sep_cons_cons {α : Type} (sep : α) (a b : List α)
    (t : List (List α)) :
    List.intercalate [sep] (a :: b :: t) =
      a ++ sep :: List.intercalate [sep] (b :: t) := by
  simp [List.intercalate, List.intersperse]

/-- Helper: `intercalate` of a list whose first piece is nonempty is
nonempty. -/
theorem intercalate_sep_ne_nil {α : Type} (sep : α) (a : List α)
    (t : List (List α)) (ha : a ≠ []) :
    List.intercalate [sep] (a :: t) ≠ [] := by
  cases t with
  | nil => simpa [List.intercalate, List.intersperse] using ha
  | cons b t2 =>
    rw [intercalate_sep_cons_cons]
    simp

/-- Helper: a character of an `intercalate` is the separator or lies in one
of the pieces. -/
theorem mem_intercalate_sep {α : Type} {sep c : α} {ls : List (List α)}
    (hc : c ∈ List.intercalate [sep] ls) : c = sep ∨ ∃ l ∈ ls, c ∈ l := by
  induction ls with
  | nil => simp [List.intercalate] at hc
  | cons a t ih =>
    cases t with
    | nil =>
      right
      refine ⟨a, by simp, ?_⟩
      simpa [List.intercalate, List.intersperse] using hc
    | cons b t2 =>
      rw [intercalate_sep_cons_cons] at hc
      rcases List.mem_append.mp hc with h1 | h2
      · exact Or.inr ⟨a, by simp, h1⟩
      · rcases List.mem_cons.mp h2 with h3 | h4
        · exact Or.inl h3
        · rcases ih h4 with h5 | ⟨l, hl, hcl⟩
          · exact Or.inl h5
          · exact Or.inr ⟨l, by simp [hl], hcl⟩

/-- Helper: a date-like string is nonempty. -/
theorem isDateLike_ne_empty {s : String} (h : isDateLike s = true) :
    s ≠ "" := by
  simp only [isDateLike, Bool.and_eq_true, decide_eq_true_eq] at h
  exact h.1

/-- Helper: a date-like string has no whitespace characters. -/
theorem isDateLike_no_ws {s : String} (h : isDateLike s = true) :
    ∀ c ∈ s.data, c.isWhitespace = false := by
  simp only [isDateLike, Bool.and_eq_true, decide_eq_true_eq,
    List.all_eq_true, Bool.not_eq_true'] at h
  exact fun c hc => (h.2 c hc).1

/-- Helper: a date-like string does not contain the separator. -/
theorem isDateLike_no_sep {s : String} (h : isDateLike s = true) :
    DATE_SEP ∉ s.data := by
  simp only [isDateLike, Bool.and_eq_true, decide_eq_true_eq,
    List.all_eq_true, Bool.not_eq_true'] at h
  intro hmem
  exact (h.2 DATE_SEP hmem).2 rfl

/-- Helper: parsing the history column written by `save_words` recovers the
history, for date-like elements. -/
theorem parse_join (hist : List String)
    (hall : ∀ s ∈ hist, isDateLike s = true) :
    (if pyStrip (pyJoinSep hist) = "" then []
     else (pySplitSep (pyStrip (pyJoinSep hist))).filter fun h =>
       decide (h ≠ "")) = hist := by
  cases hist with
  | nil =>
    have h0 : pyStrip (pyJoinSep ([] : List String)) = "" := rfl
    rw [if_pos h0]
  | cons d t =>
    have hnw : ∀ c ∈ (pyJoinSep (d :: t)).data, c.isWhitespace = false := by
      intro c hc
      have hc' : c ∈ List.intercalate [DATE_SEP] ((d :: t).map String.data) := hc
      rcases mem_intercalate_sep hc' with rfl | ⟨l, hl, hcl⟩
      · rfl
      · obtain ⟨s, hs, rfl⟩ := List.mem_map.mp hl
        exact isDateLike_no_ws (hall s hs) c hcl
    have hstrip : pyStrip (pyJoinSep (d :: t)) = pyJoinSep (d :: t) :=
      pyStrip_eq_self_of_no_ws hnw
    have hdne : d.data ≠ [] := by
      intro hd
      exact isDateLike_ne_empty (hall d (by simp))
        (string_eq_empty_iff_data.mpr hd)
    have hne : pyJoinSep (d :: t) ≠ "" := by
      intro hEq
      exact intercalate_sep_ne_nil DATE_SEP d.data (t.map String.data) hdne
        (string_eq_empty_iff_data.mp hEq)
    rw [hstrip, if_neg hne]
    have hsplit : pySplitSep (pyJoinSep (d :: t)) = d :: t := by
      unfold pySplitSep pyJoinSep
      have hx : ∀ l ∈ (d :: t).map String.data, DATE_SEP ∉ l := by
        intro l hl
        obtain ⟨s, hs, rfl⟩ := List.mem_map.mp hl
        exact isDateLike_no_sep (hall s hs)
      rw [show (String.mk (List.intercalate [DATE_SEP]
            ((d :: t).map String.data))).data =
          List.intercalate [DATE_SEP] ((d :: t).map String.data) from rfl,
        List.splitOn_intercalate ((d :: t).map String.data) DATE_SEP hx
          (by simp)]
      exact map_mk_map_data _
    rw [hsplit]
    refine List.filter_eq_self.mpr ?_
    intro s hs
    simpa using isDateLike_ne_empty (hall s hs)

/-- Helper: a key outside the key list looks up to `none`. -/
theorem lookup_eq_none_of_not_mem_keys {l : Entries} {k : String}
    (h : k ∉ l.map Prod.fst) : l.lookup k = none := by
  rw [List.lookup_eq_none_iff]
  intro p hp
  simp only [bne_iff_ne, ne_eq]
  intro hkp
  exact h (hkp ▸ List.mem_map_of_mem Prod.fst hp)

/-- Helper: inserting a fresh key into the dict appends. -/
theorem dictInsert_fresh (acc : Entries) (k : String) (v : WordEntry)
    (h : acc.lookup k = none) : dictInsert acc k v = acc ++ [(k, v)] := by
  simp [dictInsert, h]

/-- Helper: loading the row saved for a good entry appends exactly that
entry. -/
theorem loadRow_good (acc : Entries) (p : String × WordEntry)
    (hg : goodEntry p.1 p.2 = true) (hnotin : acc.lookup p.2.word = none) :
    loadRow acc { word := p.2.word, phrase := p.2.phrase,
                  history := pyJoinSep p.2.history } = acc ++ [p] := by
  obtain ⟨k, e⟩ := p
  have hg' := hg
  simp only [goodEntry, Bool.and_eq_true, decide_eq_true_eq,
    List.all_eq_true] at hg'
  obtain ⟨⟨⟨⟨hke, hwne⟩, hwstrip⟩, hpstrip⟩, hdates⟩ := hg'
  simp only at hnotin
  unfold loadRow
  simp only [hwstrip, hpstrip, if_neg hwne]
  rw [parse_join e.history hdates, dictInsert_fresh acc e.word _ hnotin, hke]

/-- Helper: folding `loadRow` over the rows of pairwise-fresh good entries
appends them all. -/
theorem load_fold_good (s : Entries) : ∀ acc : Entries,
    (∀ p ∈ s, goodEntry p.1 p.2 = true) →
    ((acc ++ s).map Prod.fst).Nodup →
    ((s.map fun p =>
        ({ word := p.2.word, phrase := p.2.phrase,
           history := pyJoinSep p.2.history } : Row)).foldl loadRow acc) =
      acc ++ s := by
  induction s with
  | nil =>
    intro acc _ _
    simp
  | cons p t ih =>
    intro acc hgood hnd
    have hp := hgood p (by simp)
    have hke : p.1 = p.2.word := by
      simp only [goodEntry, Bool.and_eq_true, decide_eq_true_eq] at hp
      exact hp.1.1.1.1
    have hnotin : acc.lookup p.2.word = none := by
      apply lookup_eq_none_of_not_mem_keys
      rw [← hke]
      intro hmem
      rw [List.map_append] at hnd
      rcases List.nodup_append.mp hnd with ⟨_, _, hdisj⟩
      exact hdisj hmem (by simp)
    rw [List.map_cons, List.foldl_cons, loadRow_good acc p (hgood p (by simp)) hnotin,
      ih (acc ++ [p]) (fun q hq => hgood q (by simp [hq]))
        (by rw [List.append_assoc]; simpa using hnd),
      List.append_assoc]
    rfl

/-- C8: for a store whose keys are the entries' words and whose words,
phrases and history elements satisfy the stated shape conditions, saving and
then loading yields the same mapping — the same pairs up to the
(case-insensitive alphabetical) reordering done on save, hence the same set
of words with identical phrase and history for each. -/
theorem save_load_roundtrip (entries : Entries)
    (hkeys : (entries.map Prod.fst).Nodup)
    (hgood : ∀ p ∈ entries, goodEntry p.1 p.2 = true) :
    (load_words (save_words entries)).Perm entries := by
  have hperm :
      (entries.mergeSort fun a b =>
        decide (a.1.toLower ≤ b.1.toLower)).Perm entries :=
    List.mergeSort_perm entries _
  have hgood' : ∀ p ∈ entries.mergeSort
      (fun a b => decide (a.1.toLower ≤ b.1.toLower)),
      goodEntry p.1 p.2 = true :=
    fun p hp => hgood p (hperm.mem_iff.mp hp)
  have hnd : ((([] : Entries) ++ entries.mergeSort
      (fun a b => decide (a.1.toLower ≤ b.1.toLower))).map Prod.fst).Nodup := by
    rw [List.nil_append]
    exact ((hperm.map Prod.fst).nodup_iff).mpr hkeys
  have hfold := load_fold_good
    (entries.mergeSort fun a b => decide (a.1.toLower ≤ b.1.toLower)) []
    hgood' hnd
  unfold load_words save_words
  rw [hfold, List.nil_append]
  exact hperm

/-- Witness for C8: the concrete store `wEntries` survives a save/load round
trip. -/
theorem save_load_roundtrip_witness :
    (load_words (save_words wEntries)).Perm wEntries :=
  save_load_roundtrip wEntries (by decide) (by decide)
